import Mathlib

/-!
# Verification of the muwerk `mutop` statistics monitor

A shallow embedding of `Examples/mutop/mutop.py` (the muwerk repository's
live task-statistics dashboard) together with proofs about its message
handler, metric derivation, bar renderer, schedule formatting and teardown
sequence.

Modelling conventions:
* Python integers are `Int` (or `Nat` where the value is an index/count that
  the JSON schema declares unsigned and no claim exercises otherwise).
* Python float arithmetic (`/` on numbers, `int()` truncation) is embedded
  exactly over `ℚ`; `int(x)` is truncation toward zero (`pyInt`).
* Fallible Python operations (indexing, `int()` conversion, string
  formatting of a non-number, division by zero) return `Except PyErr`.
* `print` output is accumulated as a list of structural `Line` values; the
  fixed-width column padding of the f-strings is elided, every datum that
  appears in a line is kept.
* `exit(n)` and an uncaught Python exception are distinct handler outcomes.
-/

/-- Python runtime errors that the handler can raise. -/
inductive PyErr where
  | indexError
  | valueError
  | typeError
  | nameError
  | zeroDivisionError
  deriving DecidableEq, Repr

/-- A decoded JSON scalar as it appears inside a task record of the
`tdt` list: the payload schema carries a string (the task name) and
integers. -/
inductive JVal where
  | str (s : String)
  | num (n : Int)
  deriving DecidableEq, Repr

/-- Python `int(x)` applied to a task-record field: a number is returned
as-is, `int()` of a (non-numeric) string raises `ValueError`.  (Decimal
strings are parsed, mirroring Python's `int("123")`.) -/
def pyIntJ : JVal → Except PyErr Int
  | .num n => .ok n
  | .str s =>
    let t := if s.startsWith "-" then s.drop 1 else s
    if t.length > 0 && t.all Char.isDigit then
      .ok (if s.startsWith "-" then -(t.toNat!) else (t.toNat! : Int))
    else .error .valueError

/-- Python `tsk[i]` on a record: `IndexError` when out of range
(claims never exercise Python's negative indexing on records). -/
def getF (tsk : List JVal) (i : Nat) : Except PyErr JVal :=
  match tsk.get? i with
  | some v => .ok v
  | none => .error .indexError

/-- Python list indexing with negative-index wrap-around, as used for
`bars[8 - r]`. -/
def pyNth (l : List Char) (i : Int) : Except PyErr Char :=
  let j : Int := if i < 0 then (l.length : Int) + i else i
  if h : 0 ≤ j ∧ j.toNat < l.length then .ok (l.get ⟨j.toNat, h.2⟩)
  else .error .indexError

/-- Python `int(q)` on a float value: truncation toward zero. -/
def pyInt (q : ℚ) : Int := if 0 ≤ q then ⌊q⌋ else ⌈q⌉

theorem pyInt_of_nonneg {q : ℚ} (h : 0 ≤ q) : pyInt q = ⌊q⌋ := by
  simp [pyInt, h]

/-! ## Decimal rendering (Python `f"{n}"`)

The schedule column is built from the decimal string of the period, so the
embedding needs an executable decimal renderer.  `natDigitsAux` is
fuel-structured so that concrete inputs evaluate inside the kernel. -/

/-- Decimal digits of `n` (most significant first), computed with fuel. -/
def natDigitsAux : Nat → Nat → List Char
  | 0, _ => []
  | fuel + 1, n =>
    if n < 10 then [Nat.digitChar n]
    else natDigitsAux fuel (n / 10) ++ [Nat.digitChar (n % 10)]

/-- Decimal digit string of a natural number, `['0']` for zero; the
character list behind Python's `f"{n}"`. -/
def natDigits (n : Nat) : List Char := natDigitsAux (n + 1) n

/-- The digits of a Python int, with a leading `'-'` when negative. -/
def intDigits (z : Int) : List Char :=
  if z < 0 then '-' :: natDigits z.natAbs else natDigits z.toNat

/-- Python `s[-k:]`: the last `k` characters, or all of `s` when shorter. -/
def pyTakeLast (k : Nat) (l : List Char) : List Char := l.drop (l.length - k)

/-- Python `s[:-k]`: everything but the last `k` characters, empty when
`s` is not longer than `k`. -/
def pyDropLast (k : Nat) (l : List Char) : List Char := l.take (l.length - k)

/-- The schedule-period suffix rewriting of `mutop.py` lines 67–74: a
decimal string ending in six zeros becomes seconds, one ending in three
zeros becomes milliseconds, anything else is labelled microseconds. -/
def schedSuffixFmt (s : List Char) : List Char :=
  if pyTakeLast 6 s = ['0', '0', '0', '0', '0', '0'] then pyDropLast 6 s ++ [' ', 's']
  else if pyTakeLast 3 s = ['0', '0', '0'] then pyDropLast 3 s ++ ['m', 's']
  else s ++ ['µ', 's']

/-- The rendered schedule column for a period of `z` microseconds
(`sched` in `on_message`). -/
def schedFmt (z : Int) : String := ⟨schedSuffixFmt (intDigits z)⟩

/-! ## Bar renderer (`on_message` lines 82–95) -/

/-- The 8-level partial-block glyph ramp `bars`, heaviest fill first. -/
def barsGlyphs : List Char := ['█', '▉', '▊', '▋', '▌', '▍', '▎', '▏']

/-- `bl0 = int(per/10)`: the number of full blocks. -/
def wholeBlocks (per : ℚ) : Int := pyInt (per / 10)

/-- `r = int((per-bl0*10)*9/10)`: the sub-block fill index. -/
def subIndex (per : ℚ) : Int :=
  pyInt ((per - wholeBlocks per * 10) * 9 / 10)

/-- Result of rendering the bar for a defined percentage: either the glyph
list, or the `exit(-2)` invariant branch (`didnt work r=...`), or a Python
error from the glyph lookup. -/
inductive BarOut where
  | ok (bar : List Char)
  | rangeExit (r : Int)
  | err (e : PyErr)
  deriving DecidableEq, Repr

/-- The `cpu_all > 0` arm of the bar construction: full blocks, the range
check on `r`, and the optional partial glyph `bars[8-r]`. -/
def renderBarPos (per : ℚ) : BarOut :=
  let bl0 := wholeBlocks per
  let r := subIndex per
  let bls := List.replicate bl0.toNat '█'
  if r < 0 ∨ 9 < r then .rangeExit r
  else if 0 < r then
    match pyNth barsGlyphs (8 - r) with
    | .ok c => .ok (bls ++ [c])
    | .error e => .err e
  else .ok bls

/-! ## Printed lines

Each `print` of the handler contributes one structural `Line`.  The
fixed-width padding of the f-strings is elided; every datum interpolated
into a line is retained. -/

/-- One printed line of a dashboard frame or diagnostic. -/
inductive Line where
  | rule
  | title
  | row (tid : Int) (name : String) (sched : String) (cnt : Int) (per : ℚ)
      (bar : List Char) (cpuCall lateCall : ℚ)
  | rowShort (tid : Int) (name : String) (sched : String) (cnt : Int)
  | memLine (mem : Nat) (hh mm ss : Nat)
  | cpuLine (pct : ℚ) (dt syt apt : Nat)
  | cursorUp (n : Nat)
  | text (s : String)
  deriving DecidableEq, Repr

/-- A failure inside one task-row iteration: an uncaught Python error, or
the `exit(-2)` taken when the sub-index range check fails. -/
inductive RowErr where
  | py (e : PyErr)
  | exit2 (r : Int)
  deriving DecidableEq, Repr

/-- `tsk[i]` followed by `int(...)`. -/
def getInt (tsk : List JVal) (i : Nat) : Except PyErr Int :=
  match getF tsk i with
  | .error e => .error e
  | .ok v => pyIntJ v

/-- Using a record field as the task name: Python only discovers a
non-string name at `name[:12]` inside the print (TypeError). -/
def asName : JVal → Except PyErr String
  | .str s => .ok s
  | .num _ => .error .typeError

/-- The row print of lines 97–101: the full row needs `per` (ValueError
when it is the blank string `''`) and `bls` (NameError when it was never
assigned); a task with no invocations prints the short row. -/
def printRow (tid : Int) (nameV : JVal) (sched : String) (cnt : Int)
    (per? : Option ℚ) (bar? : Option (List Char)) (cpu late : Int) :
    Except RowErr Line :=
  match asName nameV with
  | .error e => .error (.py e)
  | .ok name =>
    if 0 < cnt then
      match per? with
      | none => .error (.py .valueError)
      | some per =>
        match bar? with
        | none => .error (.py .nameError)
        | some bar =>
          .ok (.row tid (name.take 12) sched cnt per bar
            ((cpu : ℚ) / (cnt : ℚ)) ((late : ℚ) / (cnt : ℚ)))
    else .ok (.rowShort tid (name.take 12) sched cnt)

/-- One iteration of the render loop (lines 63–102) over a task record.
When `cpu_all > 0` the percentage and bar are computed; otherwise `per`
is the blank string and `bls` stays unassigned, `r = 0`, and the range
check trivially passes. -/
def taskRow (cpuAll : Int) (tsk : List JVal) : Except RowErr Line :=
  match getF tsk 0 with
  | .error e => .error (.py e)
  | .ok nameV =>
  match getInt tsk 1 with
  | .error e => .error (.py e)
  | .ok tid =>
  match getInt tsk 2 with
  | .error e => .error (.py e)
  | .ok schedN =>
  match getInt tsk 3 with
  | .error e => .error (.py e)
  | .ok cnt =>
  match getInt tsk 4 with
  | .error e => .error (.py e)
  | .ok cpu =>
  match getInt tsk 5 with
  | .error e => .error (.py e)
  | .ok late =>
  let sched := schedFmt schedN
  if 0 < cpuAll then
    let per : ℚ := (cpu * 100 : ℚ) / (cpuAll : ℚ)
    match renderBarPos per with
    | .rangeExit r => .error (.exit2 r)
    | .err e => .error (.py e)
    | .ok bar => printRow tid nameV sched cnt (some per) (some bar) cpu late
  else printRow tid nameV sched cnt none none cpu late

/-! ## The decoded payload and the handler -/

/-- The decoded JSON payload as `on_message` reads it.  `tsks` is `none`
when the task-count field is absent; `tdt` is the record list.  The
remaining device counters are the unsigned integers of the schema. -/
structure RawStat where
  tsks : Option Nat
  tdt : List (List JVal)
  upt : Nat
  mem : Nat
  dt : Nat
  syt : Nat
  apt : Nat
  deriving Repr

/-- Line 55's rejection test.  Python's `and` returns `False` itself when
`len(tdt) > 0` fails, and `False != 6` holds, so an empty record list is
also rejected; otherwise the first record's field count is compared to 6. -/
def schemaBad (stat : RawStat) : Bool :=
  stat.tsks.isNone ||
    (match stat.tdt with
     | [] => true
     | t0 :: _ => t0.length != 6)

/-- Accumulating loop of lines 59–62: `cpu_all += int(tsk[4])` over the
indices `range(tsks)`. -/
def cpuAllAux (tdt : List (List JVal)) : List Nat → Int → Except PyErr Int
  | [], acc => .ok acc
  | i :: rest, acc =>
    match tdt.get? i with
    | none => .error .indexError
    | some tsk =>
      match getInt tsk 4 with
      | .error e => .error e
      | .ok v => cpuAllAux tdt rest (acc + v)

/-- `cpu_all` as computed by the first loop. -/
def cpuAllLoop (tdt : List (List JVal)) (tsks : Nat) : Except PyErr Int :=
  cpuAllAux tdt (List.range tsks) 0

/-- Result of the render loop: all rows printed, the `exit(-2)` branch
(after its `didnt work` print), or an uncaught error after the printed
prefix. -/
inductive LoopOut where
  | ok (lines : List Line)
  | exit2 (lines : List Line)
  | err (lines : List Line) (e : PyErr)
  deriving DecidableEq, Repr

/-- The second loop (lines 63–102), threading the printed rows. -/
def rowsAux (cpuAll : Int) (tdt : List (List JVal)) :
    List Nat → List Line → LoopOut
  | [], acc => .ok acc
  | i :: rest, acc =>
    match tdt.get? i with
    | none => .err acc .indexError
    | some tsk =>
      match taskRow cpuAll tsk with
      | .ok line => rowsAux cpuAll tdt rest (acc ++ [line])
      | .error (.exit2 r) =>
        .exit2 (acc ++ [.text ("didnt work r=" ++ String.mk (intDigits r))])
      | .error (.py e) => .err acc e

/-- Line 112's overall CPU figure: `cpu_all*100.0/float(apt)`, a Python
`ZeroDivisionError` when `apt` is zero. -/
def overallCpuLine (cpuAll : Int) (dt syt apt : Nat) : Except PyErr Line :=
  if apt = 0 then .error .zeroDivisionError
  else .ok (.cpuLine ((cpuAll * 100 : ℚ) / (apt : ℚ)) dt syt apt)

/-- An inbound MQTT message as the handler sees it: raw metadata, plus the
outcome of `msg.payload.decode('utf-8')` / `json.loads` (performed by the
external decoder; `.error e` carries the exception's description). -/
structure MsgIn where
  topic : String
  qos : Nat
  payloadRepr : String
  decoded : Except String RawStat

/-- What one `on_message` invocation does: a normal return (with the new
`last_lines`), a process exit, or an uncaught Python error; each carries
the lines printed up to that point. -/
inductive Outcome where
  | ret (printed : List Line) (lastLines : Nat)
  | exited (printed : List Line) (code : Int)
  | raised (printed : List Line) (e : PyErr)
  deriving DecidableEq, Repr

/-- The three header prints of lines 49–51. -/
def headerLines : List Line := [.rule, .title, .rule]

/-- The incompatible-version diagnostic of lines 56–57, echoing topic,
qos and the raw payload. -/
def incompatLines (msg : MsgIn) : List Line :=
  [.text "Incompatible version of statistics information, received:",
   .text (msg.topic ++ " " ++ String.mk (natDigits msg.qos) ++ " " ++ msg.payloadRepr)]

/-- The whole of `MuwerkTop.on_message` (lines 35–116) as a function of
the previous `last_lines` and the inbound message. -/
def onMessage (lastLines : Nat) (msg : MsgIn) : Outcome :=
  match msg.decoded with
  | .error e => .ret [.text ("Failed to decode message " ++ e)] lastLines
  | .ok stat =>
    if schemaBad stat then .exited (headerLines ++ incompatLines msg) (-1)
    else
      match cpuAllLoop stat.tdt (stat.tsks.getD 0) with
      | .error e => .raised headerLines e
      | .ok cpuAll =>
        match rowsAux cpuAll stat.tdt (List.range (stat.tsks.getD 0)) [] with
        | .err lines e => .raised (headerLines ++ lines) e
        | .exit2 lines => .exited (headerLines ++ lines) (-2)
        | .ok lines =>
          let rm := stat.upt % 3600
          let mLine : Line := .memLine stat.mem (stat.upt / 3600) (rm / 60) (rm % 60)
          match overallCpuLine cpuAll stat.dt stat.syt stat.apt with
          | .error e => .raised (headerLines ++ lines ++ [.rule, mLine]) e
          | .ok cLine =>
            let up := 3 + stat.tsks.getD 0 + 5
            .ret (headerLines ++ lines ++ [.rule, mLine, cLine, .rule, .cursorUp up]) up

/-! ## Teardown (`__main__` lines 171–179 and `MuwerkTop.stop`) -/

/-- Observable actions of the main script, for the teardown trace.  The
`unsubscribe` action exists so the spec's teardown can be stated; the
script never emits it. -/
inductive MainAction where
  | printBlank
  | printText (s : String)
  | publishWait (topic payload : String)
  | unsubscribe (topic : String)
  deriving DecidableEq, Repr

/-- `MuwerkTop.stop`: one publish of the empty payload to the control
topic, then `wait_for_publish`. -/
def stopActions (muhost : String) : List MainAction :=
  [.publishWait (muhost ++ "/$SYS/stat/get") ""]

/-- The `KeyboardInterrupt` handler: one blank line per line of the last
frame, the `Unsubscribing...` message, `stop()`, and the closing text. -/
def keyboardInterruptHandler (muhost : String) (lastLines : Nat) : List MainAction :=
  List.replicate lastLines .printBlank
    ++ [.printText "Unsubscribing..."] ++ stopActions muhost ++ [.printText " Done."]

/-- `true` for a transport-unsubscribe action. -/
def MainAction.isUnsub : MainAction → Bool
  | .unsubscribe _ => true
  | _ => false

/-- `true` for a publish action. -/
def MainAction.isPublish : MainAction → Bool
  | .publishWait _ _ => true
  | _ => false

/-- `true` for a blank-line print. -/
def MainAction.isBlank : MainAction → Bool
  | .printBlank => true
  | _ => false

/-! ## Spec-side comparison definitions -/

/-- The schedule formatting rule as the spec words it: divisibility by
10^6 renders seconds, else divisibility by 10^3 renders milliseconds,
else raw microseconds. -/
def specSchedFmt (n : Nat) : String :=
  if n % 1000000 = 0 then ⟨natDigits (n / 1000000) ++ [' ', 's']⟩
  else if n % 1000 = 0 then ⟨natDigits (n / 1000) ++ ['m', 's']⟩
  else ⟨natDigits n ++ ['µ', 's']⟩

/-- `needle` occurs contiguously at the start of `hay`. -/
def leadsWith : List Char → List Char → Bool
  | [], _ => true
  | _ :: _, [] => false
  | a :: as, b :: bs => a == b && leadsWith as bs

/-- `needle` occurs contiguously somewhere in `hay`. -/
def occursIn (needle : List Char) : List Char → Bool
  | [] => needle.isEmpty
  | c :: rest => leadsWith needle (c :: rest) || occursIn needle rest

/-! ## Snapshot well-formedness (the schema's invariant) -/

/-- `tsk[4]` of a shaped record, as an `Int` (0 for malformed records);
used to state what the `cpu_all` loop sums. -/
def recCpu (tsk : List JVal) : Int :=
  match tsk.get? 4 with
  | some (.num n) => n
  | _ => 0

/-- The sum of `cpu_time_total` over a record list. -/
def cpuSumOf (tdt : List (List JVal)) : Int := (tdt.map recCpu).sum

/-- A task record of the shape the device publishes: six fields, a string
name then five integers, with non-negative CPU time. -/
def GoodRec (tsk : List JVal) : Prop :=
  ∃ name tid sched cnt cpu late,
    tsk = [JVal.str name, .num tid, .num sched, .num cnt, .num cpu, .num late] ∧
    0 ≤ cpu

/-- A well-formed snapshot: declared count matches the record list, at
least one task, and every record shaped. -/
def GoodStat (stat : RawStat) : Prop :=
  stat.tsks = some stat.tdt.length ∧ stat.tdt ≠ [] ∧ ∀ tsk ∈ stat.tdt, GoodRec tsk

/-! ## Facts about the decimal renderer -/

/-- The low `k` digits of `n`, zero-padded to width `k`, in display order. -/
def lowDigits : Nat → Nat → List Char
  | 0, _ => []
  | k + 1, n => lowDigits k (n / 10) ++ [Nat.digitChar (n % 10)]

theorem lowDigits_length (k : Nat) : ∀ n, (lowDigits k n).length = k := by
  induction k with
  | zero => intro n; rfl
  | succ k ih => intro n; simp [lowDigits, ih]

theorem natDigitsAux_congr :
    ∀ (f1 : Nat) {f2 n : Nat}, n < f1 → n < f2 →
      natDigitsAux f1 n = natDigitsAux f2 n := by
  intro f1
  induction f1 with
  | zero => intro f2 n h1 _; omega
  | succ fuel ih =>
    intro f2 n h1 h2
    cases f2 with
    | zero => omega
    | succ g =>
      simp only [natDigitsAux]
      by_cases h : n < 10
      · simp [h]
      · simp only [h, if_false]
        have hdiv : n / 10 < n := Nat.div_lt_self (by omega) (by omega)
        rw [@ih g (n / 10) (by omega) (by omega)]

theorem natDigits_unfold (n : Nat) :
    natDigits n =
      if n < 10 then [Nat.digitChar n]
      else natDigits (n / 10) ++ [Nat.digitChar (n % 10)] := by
  by_cases h : n < 10
  · simp only [natDigits, natDigitsAux, h, if_true]
  · have hdiv : n / 10 < n := Nat.div_lt_self (by omega) (by omega)
    have e : natDigitsAux (n + 1) n = natDigitsAux n (n / 10) ++ [Nat.digitChar (n % 10)] := by
      simp only [natDigitsAux, h, if_false]
    have e2 : natDigitsAux n (n / 10) = natDigitsAux (n / 10 + 1) (n / 10) :=
      @natDigitsAux_congr n (n / 10 + 1) (n / 10) (by omega) (by omega)
    simp only [natDigits, h, if_false]
    rw [e, e2]

theorem natDigits_ne_nil (n : Nat) : natDigits n ≠ [] := by
  rw [natDigits_unfold]
  split <;> simp

theorem natDigits_decomp :
    ∀ (k n : Nat), 10 ^ k ≤ n →
      natDigits n = natDigits (n / 10 ^ k) ++ lowDigits k n := by
  intro k
  induction k with
  | zero => intro n _; simp [lowDigits]
  | succ k ih =>
    intro n h
    have hpow : (10 : Nat) ^ 1 ≤ 10 ^ (k + 1) := Nat.pow_le_pow_right (by omega) (by omega)
    have h10 : 10 ≤ n := by
      have : (10 : Nat) ^ 1 = 10 := by norm_num
      omega
    rw [natDigits_unfold n]
    have hn10 : ¬ n < 10 := by omega
    simp only [hn10, if_false]
    have hdiv : 10 ^ k ≤ n / 10 := by
      rw [Nat.le_div_iff_mul_le (by omega)]
      have : 10 ^ k * 10 = 10 ^ (k + 1) := by ring
      omega
    rw [ih (n / 10) hdiv, lowDigits]
    rw [Nat.div_div_eq_div_mul]
    have hmul : 10 * 10 ^ k = 10 ^ (k + 1) := by ring
    rw [hmul]
    simp [List.append_assoc]

theorem digitChar_zero_iff : ∀ n < 10, (Nat.digitChar n = '0' ↔ n = 0) := by decide

theorem lowDigits_eq_replicate_iff :
    ∀ (k n : Nat), lowDigits k n = List.replicate k '0' ↔ n % 10 ^ k = 0 := by
  intro k
  induction k with
  | zero => intro n; simp [lowDigits, Nat.mod_one]
  | succ k ih =>
    intro n
    rw [lowDigits, List.replicate_succ']
    constructor
    · intro h
      obtain ⟨h1, h2⟩ := List.append_inj' h (by simp)
      have hd : Nat.digitChar (n % 10) = '0' := by simpa using h2
      have hm : n % 10 = 0 := (digitChar_zero_iff (n % 10) (Nat.mod_lt _ (by omega))).mp hd
      have hq : (n / 10) % 10 ^ k = 0 := (ih (n / 10)).mp h1
      obtain ⟨m, hm'⟩ := Nat.dvd_of_mod_eq_zero hm
      obtain ⟨j, hj⟩ := Nat.dvd_of_mod_eq_zero hq
      have hmdiv : n / 10 = m := by omega
      have : 10 ^ (k + 1) ∣ n := by
        refine ⟨j, ?_⟩
        rw [hm', pow_succ]
        rw [hmdiv] at hj
        rw [hj]
        ring
      obtain ⟨c, hc⟩ := this
      rw [hc]
      exact Nat.mul_mod_right _ _
    · intro h
      obtain ⟨j, hj⟩ := Nat.dvd_of_mod_eq_zero h
      have hn10 : n = 10 * (10 ^ k * j) := by rw [hj, pow_succ]; ring
      have hm0 : n % 10 = 0 := by omega
      have hdiv10 : n / 10 = 10 ^ k * j := by omega
      have hq : (n / 10) % 10 ^ k = 0 := by
        rw [hdiv10]
        exact Nat.mul_mod_right _ _
      rw [(ih (n / 10)).mpr hq, hm0]
      rfl

theorem natDigits_length_le_iff :
    ∀ n, 0 < n → ∀ k, ((natDigits n).length ≤ k ↔ n < 10 ^ k) := by
  intro n
  induction n using Nat.strong_induction_on with
  | _ n ih =>
    intro hn k
    rw [natDigits_unfold]
    by_cases h : n < 10
    · simp only [h, if_true, List.length_singleton]
      cases k with
      | zero => simp; omega
      | succ k =>
        have : (10 : Nat) ^ 1 ≤ 10 ^ (k + 1) := Nat.pow_le_pow_right (by omega) (by omega)
        simp only [pow_one] at this
        constructor
        · intro _; omega
        · intro _; omega
    · simp only [h, if_false, List.length_append, List.length_singleton]
      cases k with
      | zero =>
        constructor
        · intro hk; omega
        · intro hk; simp at hk; omega
      | succ k =>
        have hd : 0 < n / 10 := Nat.div_pos (by omega) (by omega)
        have ihd := ih (n / 10) (Nat.div_lt_self (by omega) (by omega)) hd k
        constructor
        · intro hk
          have h1 : (natDigits (n / 10)).length ≤ k := by omega
          have h2 := ihd.mp h1
          have h3 := (Nat.div_lt_iff_lt_mul (by omega : (0:Nat) < 10)).mp h2
          calc n < 10 ^ k * 10 := h3
          _ = 10 ^ (k + 1) := by ring
        · intro hk
          have hlt : n / 10 < 10 ^ k := by
            rw [Nat.div_lt_iff_lt_mul (by omega : (0:Nat) < 10)]
            calc n < 10 ^ (k + 1) := hk
            _ = 10 ^ k * 10 := by ring
          have := ihd.mpr hlt
          omega

theorem digitChar_pos_ne_zero : ∀ n < 10, 0 < n → Nat.digitChar n ≠ '0' := by decide

theorem natDigits_head_ne_zero :
    ∀ n, 0 < n → ∀ c t, natDigits n = c :: t → c ≠ '0' := by
  intro n
  induction n using Nat.strong_induction_on with
  | _ n ih =>
    intro hn c t hct
    rw [natDigits_unfold] at hct
    by_cases h : n < 10
    · simp only [h, if_true] at hct
      have hc : c = Nat.digitChar n := by
        injection hct with h1 _
        exact h1.symm
      rw [hc]
      exact digitChar_pos_ne_zero n h hn
    · simp only [h, if_false] at hct
      have hd : 0 < n / 10 := Nat.div_pos (by omega) (by omega)
      obtain ⟨c', t', he⟩ := List.exists_cons_of_ne_nil (natDigits_ne_nil (n / 10))
      rw [he] at hct
      simp only [List.cons_append] at hct
      injection hct with h1 _
      exact h1 ▸ ih (n / 10) (Nat.div_lt_self (by omega) (by omega)) hd c' t' he

theorem pyTakeLast_natDigits_eq_repl_iff (k n : Nat) (hn : 0 < n) (hk : 0 < k) :
    (pyTakeLast k (natDigits n) = List.replicate k '0' ↔ n % 10 ^ k = 0) := by
  constructor
  · intro h
    by_cases hle : 10 ^ k ≤ n
    · have hdec := natDigits_decomp k n hle
      rw [hdec] at h
      unfold pyTakeLast at h
      rw [List.length_append, lowDigits_length] at h
      rw [Nat.add_sub_cancel] at h
      rw [List.drop_left] at h
      exact (lowDigits_eq_replicate_iff k n).mp h
    · exfalso
      have hlen : (natDigits n).length ≤ k :=
        (natDigits_length_le_iff n hn k).mpr (by omega)
      unfold pyTakeLast at h
      have hz : (natDigits n).length - k = 0 := by omega
      rw [hz, List.drop_zero] at h
      obtain ⟨c, t, he⟩ := List.exists_cons_of_ne_nil (natDigits_ne_nil n)
      rw [he] at h
      cases k with
      | zero => omega
      | succ k =>
        rw [List.replicate_succ] at h
        injection h with h1 _
        exact natDigits_head_ne_zero n hn c t he h1
  · intro h
    have hle : 10 ^ k ≤ n := Nat.le_of_dvd hn (Nat.dvd_of_mod_eq_zero h)
    rw [natDigits_decomp k n hle]
    unfold pyTakeLast
    rw [List.length_append, lowDigits_length, Nat.add_sub_cancel, List.drop_left]
    exact (lowDigits_eq_replicate_iff k n).mpr h

theorem pyDropLast_natDigits (k n : Nat) (hle : 10 ^ k ≤ n) :
    pyDropLast k (natDigits n) = natDigits (n / 10 ^ k) := by
  rw [natDigits_decomp k n hle]
  unfold pyDropLast
  rw [List.length_append, lowDigits_length, Nat.add_sub_cancel, List.take_left]

theorem intDigits_natCast (n : Nat) : intDigits (n : Int) = natDigits n := by
  simp [intDigits]

theorem schedFmt_eq_spec_of_pos (n : Nat) (hn : 0 < n) :
    schedFmt (n : Int) = specSchedFmt n := by
  unfold schedFmt specSchedFmt
  rw [intDigits_natCast]
  unfold schedSuffixFmt
  have e6 : (10 : Nat) ^ 6 = 1000000 := by norm_num
  have e3 : (10 : Nat) ^ 3 = 1000 := by norm_num
  have r6 : List.replicate 6 '0' = ['0', '0', '0', '0', '0', '0'] := by decide
  have r3 : List.replicate 3 '0' = ['0', '0', '0'] := by decide
  by_cases h6 : n % 1000000 = 0
  · have h6' : n % 10 ^ 6 = 0 := by rw [e6]; exact h6
    have hsuf : pyTakeLast 6 (natDigits n) = ['0', '0', '0', '0', '0', '0'] := by
      rw [← r6]
      exact (pyTakeLast_natDigits_eq_repl_iff 6 n hn (by omega)).mpr h6'
    have hle : 10 ^ 6 ≤ n := Nat.le_of_dvd hn (Nat.dvd_of_mod_eq_zero h6')
    rw [if_pos hsuf, if_pos h6, pyDropLast_natDigits 6 n hle, e6]
  · have hsuf6 : ¬ pyTakeLast 6 (natDigits n) = ['0', '0', '0', '0', '0', '0'] := by
      rw [← r6]
      intro hc
      exact h6 (by rw [← e6]; exact (pyTakeLast_natDigits_eq_repl_iff 6 n hn (by omega)).mp hc)
    rw [if_neg hsuf6, if_neg h6]
    by_cases h3 : n % 1000 = 0
    · have h3' : n % 10 ^ 3 = 0 := by rw [e3]; exact h3
      have hsuf : pyTakeLast 3 (natDigits n) = ['0', '0', '0'] := by
        rw [← r3]
        exact (pyTakeLast_natDigits_eq_repl_iff 3 n hn (by omega)).mpr h3'
      have hle : 10 ^ 3 ≤ n := Nat.le_of_dvd hn (Nat.dvd_of_mod_eq_zero h3')
      rw [if_pos hsuf, if_pos h3, pyDropLast_natDigits 3 n hle, e3]
    · have hsuf3 : ¬ pyTakeLast 3 (natDigits n) = ['0', '0', '0'] := by
        rw [← r3]
        intro hc
        exact h3 (by rw [← e3]; exact (pyTakeLast_natDigits_eq_repl_iff 3 n hn (by omega)).mp hc)
      rw [if_neg hsuf3, if_neg h3]

/-! ## Facts about the bar renderer -/

theorem wholeBlocks_eq_floor (p : ℚ) (hp : 0 ≤ p) : wholeBlocks p = ⌊p / 10⌋ := by
  unfold wholeBlocks
  exact pyInt_of_nonneg (by positivity)

theorem rem_nonneg (p : ℚ) (hp : 0 ≤ p) : 0 ≤ p - wholeBlocks p * 10 := by
  rw [wholeBlocks_eq_floor p hp]
  have h := Int.floor_le (p / 10)
  push_cast at h ⊢
  linarith

theorem rem_lt_ten (p : ℚ) (hp : 0 ≤ p) : p - wholeBlocks p * 10 < 10 := by
  rw [wholeBlocks_eq_floor p hp]
  have h := Int.lt_floor_add_one (p / 10)
  push_cast at h ⊢
  linarith

theorem subIndex_arg_nonneg (p : ℚ) (hp : 0 ≤ p) :
    0 ≤ (p - wholeBlocks p * 10) * 9 / 10 := by
  have := rem_nonneg p hp
  positivity

theorem subIndex_eq_floor (p : ℚ) (hp : 0 ≤ p) :
    subIndex p = ⌊(p - wholeBlocks p * 10) * 9 / 10⌋ := by
  unfold subIndex
  exact pyInt_of_nonneg (subIndex_arg_nonneg p hp)

theorem subIndex_nonneg (p : ℚ) (hp : 0 ≤ p) : 0 ≤ subIndex p := by
  rw [subIndex_eq_floor p hp]
  exact Int.floor_nonneg.mpr (subIndex_arg_nonneg p hp)

theorem subIndex_le_eight (p : ℚ) (hp : 0 ≤ p) : subIndex p ≤ 8 := by
  rw [subIndex_eq_floor p hp]
  have hrem := rem_lt_ten p hp
  have harg : (p - wholeBlocks p * 10) * 9 / 10 < 9 := by linarith
  have : ⌊(p - wholeBlocks p * 10) * 9 / 10⌋ < 9 := by
    apply Int.floor_lt.mpr
    push_cast
    exact harg
  omega

theorem pyNth_ok (l : List Char) (i : Int) (h0 : 0 ≤ i) (hl : i.toNat < l.length) :
    pyNth l i = .ok (l.getD i.toNat ' ') := by
  simp only [pyNth]
  have hcond : (if i < 0 then (l.length : Int) + i else i) = i := if_neg (by omega)
  simp only [hcond]
  rw [dif_pos ⟨h0, hl⟩]
  rw [List.getD_eq_getElem l ' ' hl]
  rfl

theorem renderBarPos_ok (p : ℚ) (hp : 0 ≤ p) :
    renderBarPos p =
      .ok (List.replicate (wholeBlocks p).toNat '█' ++
        (if 0 < subIndex p then [barsGlyphs.getD (8 - subIndex p).toNat ' '] else [])) := by
  have h0 := subIndex_nonneg p hp
  have h8 := subIndex_le_eight p hp
  simp only [renderBarPos]
  rw [if_neg (by omega)]
  by_cases hr : 0 < subIndex p
  · rw [if_pos hr, if_pos hr]
    rw [pyNth_ok barsGlyphs (8 - subIndex p) (by omega) (by simp [barsGlyphs]; omega)]
  · rw [if_neg hr, if_neg hr]
    simp

theorem barLen_mono (p q : ℚ) (hp : 0 ≤ p) (hq : 0 ≤ q) (hpq : p ≤ q) :
    (wholeBlocks p).toNat + (if 0 < subIndex p then 1 else 0) ≤
      (wholeBlocks q).toNat + (if 0 < subIndex q then 1 else 0) := by
  have hfp := wholeBlocks_eq_floor p hp
  have hfq := wholeBlocks_eq_floor q hq
  have hmono : ⌊p / 10⌋ ≤ ⌊q / 10⌋ := Int.floor_le_floor (by linarith)
  have h0p : (0 : Int) ≤ ⌊p / 10⌋ := Int.floor_nonneg.mpr (by positivity)
  by_cases heq : ⌊p / 10⌋ = ⌊q / 10⌋
  · have hsub : subIndex p ≤ subIndex q := by
      rw [subIndex_eq_floor p hp, subIndex_eq_floor q hq]
      apply Int.floor_le_floor
      rw [hfp, hfq, heq]
      have : p - (⌊q / 10⌋ : ℚ) * 10 ≤ q - (⌊q / 10⌋ : ℚ) * 10 := by linarith
      linarith
    rw [hfp, hfq, heq]
    split_ifs <;> omega
  · have hlt : ⌊p / 10⌋ < ⌊q / 10⌋ := lt_of_le_of_ne hmono heq
    rw [hfp, hfq]
    split_ifs <;> omega

/-! ## Facts about the handler's loops on well-formed snapshots -/

theorem getInt_four_of_good (tsk : List JVal) (hg : GoodRec tsk) :
    getInt tsk 4 = .ok (recCpu tsk) := by
  obtain ⟨name, tid, sched, cnt, cpu, late, he, _⟩ := hg
  subst he
  rfl

theorem recCpu_nonneg_of_good (tsk : List JVal) (hg : GoodRec tsk) : 0 ≤ recCpu tsk := by
  obtain ⟨name, tid, sched, cnt, cpu, late, he, hcpu⟩ := hg
  subst he
  exact hcpu

theorem cpuAllAux_ok (tdt : List (List JVal)) (f : Nat → Int) :
    ∀ (idxs : List Nat) (acc : Int),
      (∀ i ∈ idxs, ∃ tsk, tdt.get? i = some tsk ∧ getInt tsk 4 = .ok (f i)) →
      cpuAllAux tdt idxs acc = .ok (acc + (idxs.map f).sum) := by
  intro idxs
  induction idxs with
  | nil => intro acc _; simp [cpuAllAux]
  | cons i rest ih =>
    intro acc h
    obtain ⟨tsk, hget, hint⟩ := h i (by simp)
    simp only [cpuAllAux, hget, hint]
    rw [ih (acc + f i) (fun j hj => h j (by simp [hj]))]
    simp only [List.map_cons, List.sum_cons]
    congr 1
    ring

theorem range_map_recCpu_sum (tdt : List (List JVal)) :
    ((List.range tdt.length).map (fun i => recCpu (tdt.getD i []))).sum = cpuSumOf tdt := by
  induction tdt using List.reverseRecOn with
  | nil => rfl
  | append_singleton l a ih =>
    rw [List.length_append, List.length_singleton, List.range_succ]
    rw [List.map_append, List.sum_append]
    have h1 : (List.range l.length).map (fun i => recCpu ((l ++ [a]).getD i [])) =
        (List.range l.length).map (fun i => recCpu (l.getD i [])) := by
      apply List.map_congr_left
      intro i hi
      rw [List.mem_range] at hi
      rw [List.getD_append _ _ _ _ hi]
    rw [h1, ih]
    have h2 : (l ++ [a]).getD l.length [] = a := by
      rw [List.getD_append_right _ _ _ _ (le_refl _)]
      simp
    simp [cpuSumOf, h2]

theorem cpuAllLoop_good (tdt : List (List JVal)) (hg : ∀ tsk ∈ tdt, GoodRec tsk) :
    cpuAllLoop tdt tdt.length = .ok (cpuSumOf tdt) := by
  unfold cpuAllLoop
  rw [cpuAllAux_ok tdt (fun i => recCpu (tdt.getD i []))]
  · rw [range_map_recCpu_sum]
    ring_nf
  · intro i hi
    rw [List.mem_range] at hi
    refine ⟨tdt.getD i [], ?_, ?_⟩
    · rw [List.getD_eq_getElem _ _ hi]
      exact List.get?_eq_get hi
    · apply getInt_four_of_good
      apply hg
      rw [List.getD_eq_getElem _ _ hi]
      exact List.getElem_mem hi

theorem rowsAux_ok (cpuAll : Int) (tdt : List (List JVal)) (g : Nat → Line) :
    ∀ (idxs : List Nat) (acc : List Line),
      (∀ i ∈ idxs, ∃ tsk, tdt.get? i = some tsk ∧ taskRow cpuAll tsk = .ok (g i)) →
      rowsAux cpuAll tdt idxs acc = .ok (acc ++ idxs.map g) := by
  intro idxs
  induction idxs with
  | nil => intro acc _; simp [rowsAux]
  | cons i rest ih =>
    intro acc h
    obtain ⟨tsk, hget, hrow⟩ := h i (by simp)
    simp only [rowsAux, hget, hrow]
    rw [ih (acc ++ [g i]) (fun j hj => h j (by simp [hj]))]
    simp

theorem taskRow_good_pos (cpuAll : Int) (hpos : 0 < cpuAll)
    (name : String) (tid sched cnt cpu late : Int) (hcpu : 0 ≤ cpu) (hcnt : 0 < cnt) :
    taskRow cpuAll [JVal.str name, .num tid, .num sched, .num cnt, .num cpu, .num late] =
      .ok (.row tid (name.take 12) (schedFmt sched) cnt
        ((cpu * 100 : ℚ) / (cpuAll : ℚ))
        (List.replicate (wholeBlocks ((cpu * 100 : ℚ) / (cpuAll : ℚ))).toNat '█' ++
          (if 0 < subIndex ((cpu * 100 : ℚ) / (cpuAll : ℚ)) then
            [barsGlyphs.getD (8 - subIndex ((cpu * 100 : ℚ) / (cpuAll : ℚ))).toNat ' ']
          else []))
        ((cpu : ℚ) / (cnt : ℚ)) ((late : ℚ) / (cnt : ℚ))) := by
  have hper : (0 : ℚ) ≤ (cpu * 100 : ℚ) / (cpuAll : ℚ) := by
    have h1 : (0 : ℚ) ≤ (cpu : ℚ) := by exact_mod_cast hcpu
    have h2 : (0 : ℚ) < (cpuAll : ℚ) := by exact_mod_cast hpos
    positivity
  simp only [taskRow, getF, getInt, pyIntJ, List.get?]
  rw [if_pos hpos]
  rw [renderBarPos_ok _ hper]
  simp only [printRow, asName]
  rw [if_pos hcnt]

/-! ## Substring occurrence -/

theorem leadsWith_refl_append (s t : List Char) : leadsWith s (s ++ t) = true := by
  induction s with
  | nil => rfl
  | cons c cs ih => simp [leadsWith, ih]

theorem occursIn_of_leadsWith (s hay : List Char) (h : leadsWith s hay = true) :
    occursIn s hay = true := by
  cases hay with
  | nil =>
    cases s with
    | nil => rfl
    | cons _ _ => simp [leadsWith] at h
  | cons c rest => simp [occursIn, h]

theorem occursIn_append_mid (s pre post : List Char) :
    occursIn s (pre ++ (s ++ post)) = true := by
  induction pre with
  | nil =>
    rw [List.nil_append]
    exact occursIn_of_leadsWith s (s ++ post) (leadsWith_refl_append s post)
  | cons c cs ih =>
    rw [List.cons_append]
    simp [occursIn, ih]

/-! ## The claims -/

/-- The concrete snapshot on which claim C1 fails: `cpu_all = 0` (the one
task reports zero CPU time) while its invocation count is positive, so
the full-row print is reached with `per = ''`. -/
def c1Stat : RawStat :=
  { tsks := some 1,
    tdt := [[.str "task0", .num 1, .num 1000, .num 5, .num 0, .num 0]],
    upt := 10, mem := 100, dt := 1, syt := 2, apt := 400 }

/-- The message carrying `c1Stat`. -/
def c1Msg : MsgIn :=
  { topic := "omu/dev/$SYS/stat", qos := 0, payloadRepr := "b'c1'",
    decoded := .ok c1Stat }

/-- C1: the claim says a `cpu_all = 0` snapshot renders a frame with blank
percent fields and empty bars, without a numeric error.  On the code,
`per` is set to the empty string and `bls` is never assigned, so as soon
as any task has a positive invocation count the full-row f-string applies
the float format `6.3f` to `''` and raises ValueError: the handler dies
after the three header lines and no frame is printed. -/
theorem C1_cpu_all_zero_raises :
    onMessage 0 c1Msg = .raised headerLines .valueError := by decide

/-- C2: a decoded snapshot whose first task record does not have exactly 6
fields is always rejected: the handler prints the incompatible-version
diagnostic (which echoes topic, qos and the raw payload), exits with the
non-zero status -1, and renders no task row of the snapshot.  The raw
payload's occurrence in the diagnostic line is stated explicitly. -/
theorem C2_schema_mismatch_exits (lastLines : Nat) (msg : MsgIn) (stat : RawStat)
    (hdec : msg.decoded = .ok stat) (t0 : List JVal) (rest : List (List JVal))
    (htdt : stat.tdt = t0 :: rest) (hlen : t0.length ≠ 6) :
    onMessage lastLines msg = .exited (headerLines ++ incompatLines msg) (-1) ∧
    (-1 : Int) ≠ 0 ∧
    occursIn msg.payloadRepr.toList
      ((msg.topic ++ " " ++ String.mk (natDigits msg.qos) ++ " " ++ msg.payloadRepr).toList)
      = true := by
  have hbad : schemaBad stat = true := by
    unfold schemaBad
    rw [htdt]
    simp [hlen]
  refine ⟨?_, by decide, ?_⟩
  · simp only [onMessage, hdec, hbad, if_true]
  · have hdata : (msg.topic ++ " " ++ String.mk (natDigits msg.qos) ++ " "
        ++ msg.payloadRepr).toList
        = (msg.topic ++ " " ++ String.mk (natDigits msg.qos) ++ " ").toList
          ++ (msg.payloadRepr.toList ++ []) := by
      simp [String.toList, String.data_append]
    rw [hdata]
    exact occursIn_append_mid _ _ _

/-- First task record with 5 fields, for the C2 witness. -/
def c2Stat : RawStat :=
  { tsks := some 1,
    tdt := [[.str "A", .num 1, .num 1000, .num 5, .num 7]],
    upt := 0, mem := 0, dt := 0, syt := 0, apt := 1 }

/-- The message carrying `c2Stat`. -/
def c2Msg : MsgIn :=
  { topic := "dev/$SYS/stat", qos := 0, payloadRepr := "b'raw'",
    decoded := .ok c2Stat }

theorem C2_witness :
    onMessage 3 c2Msg = .exited (headerLines ++ incompatLines c2Msg) (-1) ∧
    (-1 : Int) ≠ 0 ∧
    occursIn c2Msg.payloadRepr.toList
      ((c2Msg.topic ++ " " ++ String.mk (natDigits c2Msg.qos) ++ " "
        ++ c2Msg.payloadRepr).toList) = true :=
  C2_schema_mismatch_exits 3 c2Msg c2Stat rfl _ _ rfl (by decide)

/-- C3 counterexample: the teardown trace of the interrupt handler (with
`last_lines = 4` and device host `mydev`) contains no transport
unsubscribe action at all, refuting the claim's "performs an unsubscribe
from the statistics topic". -/
theorem C3_counterexample_no_unsubscribe :
    (keyboardInterruptHandler "mydev" 4).countP (fun a => a.isUnsub) = 0 := by decide

/-- Count of a predicate over a replicated list. -/
theorem countP_replicate {α : Type} (p : α → Bool) (a : α) :
    ∀ n, (List.replicate n a).countP p = if p a then n else 0 := by
  intro n
  induction n with
  | zero => simp
  | succ n ih =>
    rw [List.replicate_succ, List.countP_cons, ih]
    by_cases h : p a <;> simp [h]

/-- C3 (amended): on interrupt-cancellation during sampling the program
prints blank lines equal to the last frame's line count, prints the
`Unsubscribing...` message, performs exactly one "stop sampling" publish
with empty payload to the control topic (waiting for its acknowledgment)
— and performs no transport unsubscribe: the only trace of unsubscription
is the printed text. -/
theorem C3_teardown_trace (muhost : String) (lastLines : Nat) :
    keyboardInterruptHandler muhost lastLines =
      List.replicate lastLines .printBlank ++
        [.printText "Unsubscribing...",
         .publishWait (muhost ++ "/$SYS/stat/get") "",
         .printText " Done."] ∧
    (keyboardInterruptHandler muhost lastLines).countP (fun a => a.isPublish) = 1 ∧
    (keyboardInterruptHandler muhost lastLines).countP (fun a => a.isUnsub) = 0 ∧
    (keyboardInterruptHandler muhost lastLines).countP (fun a => a.isBlank) = lastLines := by
  refine ⟨by simp [keyboardInterruptHandler, stopActions], ?_, ?_, ?_⟩ <;>
    simp [keyboardInterruptHandler, stopActions, List.countP_append,
      countP_replicate, List.countP_cons, MainAction.isPublish, MainAction.isUnsub,
      MainAction.isBlank]

/-- C4: the footer's overall CPU figure is `cpu_all*100/app_time_us`
whenever `app_time_us > 0`; when `app_time_us = 0` the division raises
ZeroDivisionError (the handler fails loudly) instead of silently
producing a number. -/
theorem C4_overall_cpu (cpuAll : Int) (dt syt apt : Nat) :
    (0 < apt → overallCpuLine cpuAll dt syt apt =
      .ok (.cpuLine ((cpuAll * 100 : ℚ) / (apt : ℚ)) dt syt apt)) ∧
    (apt = 0 → overallCpuLine cpuAll dt syt apt = .error .zeroDivisionError) := by
  constructor
  · intro h
    unfold overallCpuLine
    rw [if_neg (by omega)]
  · intro h
    unfold overallCpuLine
    rw [if_pos h]

theorem C4_witness :
    (overallCpuLine 50 1 2 400 =
      .ok (.cpuLine ((50 * 100 : ℚ) / ((400 : Nat) : ℚ)) 1 2 400)) ∧
    (overallCpuLine 50 1 2 0 = .error .zeroDivisionError) :=
  ⟨(C4_overall_cpu 50 1 2 400).1 (by decide), (C4_overall_cpu 50 1 2 0).2 rfl⟩

/-- C5 counterexample: the claim covers every non-negative period, but at
`n = 0` the suffix test fails (`"0"` does not end in `"000000"`), so the
code renders `0µs` while the divisibility rule of the claim demands
`0 s`. -/
theorem C5_counterexample_zero : schedFmt (0 : Int) ≠ specSchedFmt 0 := by decide

/-- C5 (amended): for every positive period the rendered schedule string
follows the divisibility rule (`n/10^6` seconds when 10^6 divides n, else
`n/10^3` milliseconds when 10^3 divides n, else raw microseconds), the
four cited examples hold, and `0` renders as `0µs`. -/
theorem C5_sched_format (n : Nat) (hn : 0 < n) :
    schedFmt (n : Int) = specSchedFmt n ∧
    schedFmt (1000000 : Int) = "1 s" ∧
    schedFmt (5000 : Int) = "5ms" ∧
    schedFmt (250 : Int) = "250µs" ∧
    schedFmt (2000000 : Int) = "2 s" ∧
    schedFmt (0 : Int) = "0µs" := by
  refine ⟨schedFmt_eq_spec_of_pos n hn, ?_, ?_, ?_, ?_, ?_⟩ <;> decide

theorem C5_witness :
    0 < 3 ∧ (schedFmt ((3 : Nat) : Int) = specSchedFmt 3 ∧
      schedFmt (1000000 : Int) = "1 s" ∧
      schedFmt (5000 : Int) = "5ms" ∧
      schedFmt (250 : Int) = "250µs" ∧
      schedFmt (2000000 : Int) = "2 s" ∧
      schedFmt (0 : Int) = "0µs") :=
  ⟨by decide, C5_sched_format 3 (by decide)⟩

/-- C6: for every percentage in [0,100] the sub-index lies in [0,9] (in
fact in [0,8]), so the fail-fast `exit(-2)` branch of the bar renderer is
never taken and the bar is produced. -/
theorem C6_subIndex_in_range (p : ℚ) (hp0 : 0 ≤ p) (hp1 : p ≤ 100) :
    (0 ≤ subIndex p ∧ subIndex p ≤ 9) ∧ ∃ bar, renderBarPos p = .ok bar := by
  refine ⟨⟨subIndex_nonneg p hp0, le_trans (subIndex_le_eight p hp0) (by omega)⟩, ?_⟩
  exact ⟨_, renderBarPos_ok p hp0⟩

theorem C6_witness :
    (0 : ℚ) ≤ 47 ∧ (47 : ℚ) ≤ 100 ∧
    ((0 ≤ subIndex 47 ∧ subIndex 47 ≤ 9) ∧ ∃ bar, renderBarPos 47 = .ok bar) :=
  ⟨by norm_num, by norm_num, C6_subIndex_in_range 47 (by norm_num) (by norm_num)⟩

/-- C7: for percentages p ≤ q in [0,100] the bar for p is exactly
`⌊p/10⌋` full blocks followed by one partial glyph (the `(8-sub_index)`-th
ramp entry) exactly when the sub-index is positive, and the bar length is
monotone: the bar for p is never longer than the bar for q. -/
theorem C7_bar_structure_mono (p q : ℚ) (hp0 : 0 ≤ p) (hp1 : p ≤ 100)
    (hq0 : 0 ≤ q) (hq1 : q ≤ 100) (hpq : p ≤ q) :
    ∃ bp bq,
      renderBarPos p = .ok bp ∧ renderBarPos q = .ok bq ∧
      bp = List.replicate (⌊p / 10⌋).toNat '█' ++
        (if 0 < subIndex p then [barsGlyphs.getD (8 - subIndex p).toNat ' '] else []) ∧
      bp.length ≤ bq.length := by
  refine ⟨_, _, renderBarPos_ok p hp0, renderBarPos_ok q hq0, ?_, ?_⟩
  · rw [wholeBlocks_eq_floor p hp0]
  · have e1 : (if 0 < subIndex p then
        [barsGlyphs.getD (8 - subIndex p).toNat ' '] else []).length =
        if 0 < subIndex p then 1 else 0 := by split_ifs <;> rfl
    have e2 : (if 0 < subIndex q then
        [barsGlyphs.getD (8 - subIndex q).toNat ' '] else []).length =
        if 0 < subIndex q then 1 else 0 := by split_ifs <;> rfl
    rw [List.length_append, List.length_append, List.length_replicate,
      List.length_replicate, e1, e2]
    exact barLen_mono p q hp0 hq0 hpq

theorem C7_witness :
    ∃ bp bq,
      renderBarPos 25 = .ok bp ∧ renderBarPos 75 = .ok bq ∧
      bp = List.replicate (⌊(25 : ℚ) / 10⌋).toNat '█' ++
        (if 0 < subIndex 25 then [barsGlyphs.getD (8 - subIndex 25).toNat ' '] else []) ∧
      bp.length ≤ bq.length :=
  C7_bar_structure_mono 25 75 (by norm_num) (by norm_num) (by norm_num)
    (by norm_num) (by norm_num)

/-- The exception description CPython's json module produces for the
unparseable payload `hello` — modelled from the stdlib's behaviour: a
`json.JSONDecodeError` message carries only the error position, never the
document text. -/
def helloDecodeErr : String := "Expecting value: line 1 column 1 (char 0)"

/-- The message carrying the unparseable payload `hello`. -/
def c8Msg : MsgIn :=
  { topic := "omu/dev/$SYS/stat", qos := 0, payloadRepr := "b'hello'",
    decoded := .error helloDecodeErr }

/-- C8 counterexample: for the undecodable payload `hello` the handler
prints only `Failed to decode message` followed by the exception text —
the raw payload does not occur anywhere in the diagnostic, refuting the
claim's "logs a diagnostic that includes the raw payload".  (The rest of
the claim holds: the message is dropped and `last_lines` is unchanged.) -/
theorem C8_counterexample_payload_absent :
    onMessage 7 c8Msg = .ret [.text ("Failed to decode message " ++ helloDecodeErr)] 7 ∧
    occursIn "hello".toList
      ("Failed to decode message " ++ helloDecodeErr).toList = false := by
  constructor
  · rfl
  · decide

/-- C8 (amended): on any decode failure the handler prints exactly one
diagnostic consisting of a fixed prefix and the decode-error description
(not the raw payload), drops the message, does not exit, and leaves the
session state (`last_lines`) unchanged. -/
theorem C8_decode_failure_drops (st : Nat) (topic : String) (qos : Nat)
    (pr : String) (e : String) :
    onMessage st { topic := topic, qos := qos, payloadRepr := pr, decoded := .error e } =
      .ret [.text ("Failed to decode message " ++ e)] st := rfl

/-- C9: on a well-formed snapshot the first loop computes `cpu_all` as the
sum of the tasks' total CPU times, and when that sum is positive every
task row carries the percentage `cpu_time_total*100/cpu_all` (and the
per-call figures `cpu/cnt`, `late/cnt`). -/
theorem C9_cpu_percent (stat : RawStat) (hg : GoodStat stat)
    (hpos : 0 < cpuSumOf stat.tdt) :
    cpuAllLoop stat.tdt stat.tdt.length = .ok (cpuSumOf stat.tdt) ∧
    ∀ name : String, ∀ tid sched cnt cpu late : Int,
      [JVal.str name, .num tid, .num sched, .num cnt, .num cpu, .num late] ∈ stat.tdt →
      0 < cnt →
      ∃ bar, taskRow (cpuSumOf stat.tdt)
          [JVal.str name, .num tid, .num sched, .num cnt, .num cpu, .num late] =
        .ok (.row tid (name.take 12) (schedFmt sched) cnt
          ((cpu * 100 : ℚ) / ((cpuSumOf stat.tdt : Int) : ℚ)) bar
          ((cpu : ℚ) / (cnt : ℚ)) ((late : ℚ) / (cnt : ℚ))) := by
  obtain ⟨htsks, hne, hrecs⟩ := hg
  constructor
  · exact cpuAllLoop_good stat.tdt hrecs
  · intro name tid sched cnt cpu late hmem hcnt
    have hcpu : 0 ≤ cpu := by
      obtain ⟨n', t', s', c', cp', l', he, hge⟩ := hrecs _ hmem
      simp only [List.cons.injEq, JVal.str.injEq, JVal.num.injEq, and_true] at he
      obtain ⟨-, -, -, -, h5, -⟩ := he
      omega
    exact ⟨_, taskRow_good_pos _ hpos name tid sched cnt cpu late hcpu hcnt⟩

/-- The spec's worked example for C9: two tasks with CPU times 100 and
300. -/
def c9Stat : RawStat :=
  { tsks := some 2,
    tdt := [[.str "A", .num 1, .num 1000, .num 10, .num 100, .num 5],
            [.str "B", .num 2, .num 2000, .num 4, .num 300, .num 0]],
    upt := 3661, mem := 1024, dt := 1, syt := 2, apt := 400 }

theorem C9_witness :
    cpuAllLoop c9Stat.tdt c9Stat.tdt.length = .ok 400 ∧
    (∃ bar, taskRow 400 [JVal.str "A", .num 1, .num 1000, .num 10, .num 100, .num 5] =
      .ok (.row 1 ("A".take 12) (schedFmt 1000) 10
        ((100 * 100 : ℚ) / ((400 : Int) : ℚ)) bar
        ((100 : ℚ) / (10 : ℚ)) ((5 : ℚ) / (10 : ℚ)))) ∧
    ((100 * 100 : ℚ) / ((400 : Int) : ℚ) = 25 ∧
      (300 * 100 : ℚ) / ((400 : Int) : ℚ) = 75) := by
  have hg : GoodStat c9Stat := by
    refine ⟨rfl, by decide, ?_⟩
    intro tsk hmem
    simp only [c9Stat, List.mem_cons, List.not_mem_nil, or_false] at hmem
    rcases hmem with h | h <;> subst h
    · exact ⟨"A", 1, 1000, 10, 100, 5, rfl, by decide⟩
    · exact ⟨"B", 2, 2000, 4, 300, 0, rfl, by decide⟩
  have hsum : cpuSumOf c9Stat.tdt = 400 := by decide
  have h := C9_cpu_percent c9Stat hg (by rw [hsum]; decide)
  obtain ⟨h1, h2⟩ := h
  rw [hsum] at h1 h2
  refine ⟨h1, h2 "A" 1 1000 10 100 5 (by simp [c9Stat]) (by decide), by norm_num, by norm_num⟩

/-- A declared-zero-task snapshot for the C10 witness. -/
def c10Stat : RawStat :=
  { tsks := some 0, tdt := [], upt := 1, mem := 2, dt := 3, syt := 4, apt := 5 }

/-- The message carrying `c10Stat`. -/
def c10Msg : MsgIn :=
  { topic := "dev/$SYS/stat", qos := 0, payloadRepr := "b'empty'",
    decoded := .ok c10Stat }

/-- C10: a decoded payload that has the task-count field but an empty
record list is rejected exactly like a schema mismatch — Python's `and`
yields `False` for the empty list and `False != 6` holds — so the handler
prints the incompatible-version diagnostic and exits with the non-zero
status -1; no snapshot data is rendered. -/
theorem C10_empty_tdt_rejected (lastLines : Nat) (msg : MsgIn) (stat : RawStat)
    (hdec : msg.decoded = .ok stat) (k : Nat) (htsks : stat.tsks = some k)
    (htdt : stat.tdt = []) :
    onMessage lastLines msg = .exited (headerLines ++ incompatLines msg) (-1) ∧
    (-1 : Int) ≠ 0 := by
  have hbad : schemaBad stat = true := by
    unfold schemaBad
    rw [htdt, htsks]
    rfl
  refine ⟨?_, by decide⟩
  simp only [onMessage, hdec, hbad, if_true]

theorem C10_witness :
    onMessage 5 c10Msg = .exited (headerLines ++ incompatLines c10Msg) (-1) ∧
    (-1 : Int) ≠ 0 :=
  C10_empty_tdt_rejected 5 c10Msg c10Stat rfl 0 rfl rfl
